import Mathlib

/-!
Verification development for the Cortex portable-brain repository.

Part 1 embeds the planner-guard crate (`crates/planner-guard/src/lib.rs`):
the plan data model, `validate_plan_against_manifest`, and
`deterministic_plan_from_manifest`.

Part 2 embeds the brain-store crate (`crates/brain-store/src/lib.rs`):
the manifest/state data model, the mutation protocol, merge,
forget_suppress, export, import and list_brains.  The external crypto
crates (sha2, ed25519-dalek, chacha20poly1305, argon2) are not part of
the repository sources and are modelled symbolically.

Part 3 embeds the proxy response mapping
(`crates/cortex-app/src/proxy.rs`): `map_execute_response`,
`cortex_headers` and `push_header`.
-/

deriving instance DecidableEq for Except

namespace PlannerGuard

/-- Typed parameter value (`rmvm_proto::Value`).  `f64` payloads are carried
opaquely as a decimal rendering: no embedded operation inspects them. -/
inductive PValue where
  | s (v : String)
  | b (v : Bool)
  | i64 (v : Int)
  | f64 (v : String)
  | e (v : String)
deriving DecidableEq, Repr

/-- Embedding of `rmvm_proto::OpFetch`. -/
structure OpFetch where
  handle_ref : String
deriving DecidableEq, Repr

/-- Embedding of `rmvm_proto::OpApplySelector`. -/
structure OpApplySelector where
  selector_ref : String
  params : List (String × PValue)
deriving DecidableEq, Repr

/-- Embedding of `rmvm_proto::OpResolve`. -/
structure OpResolve where
  in_reg : String
  policy_id : String
deriving DecidableEq, Repr

/-- Embedding of `rmvm_proto::OpFilter`. -/
structure OpFilter where
  in_reg : String
  filter_ref : String
  params : List (String × PValue)
deriving DecidableEq, Repr

/-- Embedding of `rmvm_proto::OpJoin`; `edge_type` is the prost i32 enum value. -/
structure OpJoin where
  left_reg : String
  right_reg : String
  edge_type : Int
deriving DecidableEq, Repr

/-- Embedding of `rmvm_proto::OpProject`. -/
structure OpProject where
  in_reg : String
  field_paths : List String
deriving DecidableEq, Repr

/-- Embedding of `rmvm_proto::ValueRef`. -/
structure ValueRef where
  reg : String
  field_path : String
deriving DecidableEq, Repr

/-- Embedding of `rmvm_proto::citation_ref::Cite`. -/
inductive Cite where
  | handleRef (h : String)
  | anchorRef (a : String)
deriving DecidableEq, Repr

/-- Embedding of `rmvm_proto::CitationRef`. -/
structure CitationRef where
  cite : Option Cite
deriving DecidableEq, Repr

/-- Embedding of `rmvm_proto::OpAssert`; `assertion_type` is the prost i32 enum value and
`bindings` is a BTreeMap rendered as an association list. -/
structure OpAssert where
  assertion_type : Int
  bindings : List (String × ValueRef)
  citations : List CitationRef
deriving DecidableEq, Repr

/-- Embedding of `rmvm_proto::step::Op`, the closed sum of plan operations. -/
inductive Op where
  | fetch (v : OpFetch)
  | applySelector (v : OpApplySelector)
  | resolve (v : OpResolve)
  | filter (v : OpFilter)
  | join (v : OpJoin)
  | project (v : OpProject)
  | assertOp (v : OpAssert)
deriving DecidableEq, Repr

/-- Embedding of `rmvm_proto::Step`; prost renders the oneof operation as an Option. -/
structure Step where
  out : String
  op : Option Op
deriving DecidableEq, Repr

/-- Embedding of `rmvm_proto::HandleRef`; fields other than `ref` are never read by the
embedded functions and are kept as payload. -/
structure HandleRef where
  ref : String
  type_id : String
  availability : Int
  signature_summary : String
  conflict_group_id : String
deriving DecidableEq, Repr

/-- Embedding of `rmvm_proto::SelectorRef`; `cost_weight` (an f64) is carried opaquely. -/
structure SelectorRef where
  sel : String
  description : String
  cost_weight : String
  return_type : Int
deriving DecidableEq, Repr

/-- Embedding of `rmvm_proto::PlanBudget`; `max_total_cost` (an f64) is carried opaquely. -/
structure PlanBudget where
  max_ops : Int
  max_join_depth : Int
  max_fanout : Int
  max_total_cost : String
deriving DecidableEq, Repr

/-- Embedding of `rmvm_proto::PublicManifest`; context items are opaque. -/
structure PublicManifest where
  request_id : String
  handles : List HandleRef
  selectors : List SelectorRef
  context : List String
  budget : Option PlanBudget
deriving DecidableEq, Repr

/-- Embedding of `rmvm_proto::OutputSpec`. -/
structure OutputSpec where
  reg : String
deriving DecidableEq, Repr

/-- Embedding of `rmvm_proto::RmvmPlan`. -/
structure RmvmPlan where
  request_id : String
  steps : List Step
  outputs : List OutputSpec
deriving DecidableEq, Repr

/-- The per-operation checks of `validate_plan_against_manifest`: the match
on `op` inside the step loop.  `regs` is the set of defined registers at the
time of the check (the source consults it after inserting the current
step's `out`). -/
def checkOp (handle_refs selector_refs regs : List String) : Op → Except String Unit
  | .fetch f =>
      if handle_refs.contains f.handle_ref then .ok ()
      else .error "invalid plan: unknown handle ref"
  | .applySelector sel =>
      if selector_refs.contains sel.selector_ref then .ok ()
      else .error "invalid plan: unknown selector ref"
  | .resolve r =>
      if regs.contains r.in_reg then .ok ()
      else .error "invalid plan: input register not defined"
  | .filter f =>
      if regs.contains f.in_reg then .ok ()
      else .error "invalid plan: input register not defined"
  | .join j =>
      if regs.contains j.left_reg && regs.contains j.right_reg then .ok ()
      else .error "invalid plan: join registers not defined"
  | .project p =>
      if regs.contains p.in_reg then .ok ()
      else .error "invalid plan: input register not defined"
  | .assertOp a =>
      if a.bindings.all (fun b => regs.contains b.2.reg) then .ok ()
      else .error "invalid plan: assert binding register not defined"

/-- Embedding of `step.out.trim().is_empty()`: the string is empty or consists only of
whitespace.  Rendered as an all-whitespace test, which agrees with trimming
then testing emptiness. -/
def isBlank (s : String) : Bool :=
  s.data.all (fun c => c.isWhitespace)

/-- The required-op check of the step loop
(`step.op.as_ref().ok_or_else(..)` followed by the match on the
operation). -/
def stepCheck (handle_refs selector_refs regs : List String) : Option Op → Except String Unit
  | none => .error "invalid plan: step.op is required"
  | some op => checkOp handle_refs selector_refs regs op

/-- The step loop of `validate_plan_against_manifest`; an error from any
check aborts the loop (`bail!`/`?`), rendered with bind.  Note the source
inserts `step.out` into the register set *before* running the operation
checks, so an operation may reference the step's own `out`. -/
def validateSteps (handle_refs selector_refs : List String) :
    List String → List Step → Except String Unit
  | _, [] => .ok ()
  | regs, step :: rest =>
    if isBlank step.out then .error "invalid plan: step.out is required"
    else if regs.contains step.out then .error "invalid plan: register redefined"
    else
      stepCheck handle_refs selector_refs (regs ++ [step.out]) step.op >>= fun _ =>
        validateSteps handle_refs selector_refs (regs ++ [step.out]) rest

/-- Embedding of `validate_plan_against_manifest` from `crates/planner-guard/src/lib.rs`. -/
def validate_plan_against_manifest (plan : RmvmPlan) (manifest : PublicManifest) :
    Except String Unit :=
  validateSteps (manifest.handles.map (fun h => h.ref))
    (manifest.selectors.map (fun s => s.sel)) [] plan.steps

/-- Embedding of `AssertionType::AssertWorldFact as i32` (prost enum value). -/
def assertWorldFactCode : Int := 2

/-- Embedding of `deterministic_plan_from_manifest` from
`crates/planner-guard/src/lib.rs`. -/
def deterministic_plan_from_manifest (request_id subject : String)
    (manifest : PublicManifest) : Except String RmvmPlan :=
  match manifest.handles with
  | handle :: _ =>
    .ok
      { request_id := request_id
        steps :=
          [ { out := "r0", op := some (.fetch { handle_ref := handle.ref }) }
          , { out := "r1"
              op := some (.project { in_reg := "r0", field_paths := ["meta.subject"] }) }
          , { out := "r2"
              op := some (.assertOp
                { assertion_type := assertWorldFactCode
                  bindings := [("subject", { reg := "r1", field_path := "meta.subject" })]
                  citations := [] }) } ]
        outputs := [{ reg := "r2" }] }
  | [] =>
    match manifest.selectors with
    | selector :: _ =>
      .ok
        { request_id := request_id
          steps :=
            [ { out := "r0"
                op := some (.applySelector
                  { selector_ref := selector.sel
                    params := [("subject", .s subject)] }) }
            , { out := "r1"
                op := some (.project { in_reg := "r0", field_paths := ["set_count"] }) }
            , { out := "r2"
                op := some (.assertOp
                  { assertion_type := assertWorldFactCode
                    bindings := [("subject", { reg := "r1", field_path := "set_count" })]
                    citations := [] }) } ]
          outputs := [{ reg := "r2" }] }
    | [] => .error "manifest has no handles/selectors for deterministic fallback"

end PlannerGuard

namespace BrainStore

/-- Opaque stand-in for `serde_json::Value` payloads (memory object values,
audit details, ledger payloads).  The store only ever compares them for
equality, so an opaque type with decidable equality suffices. -/
abbrev JsonValue := String

/-- Modelled from the spec: Argon2id key derivation from the `argon2` crate,
which is not under src/.  A derived key is identified symbolically by the
passphrase and salt it was derived from (§4.1: deterministic KDF). -/
inductive DerivedKey where
  | argon2 (secret : String) (salt : Nat)
deriving DecidableEq, Repr

/-- Embedding of `MemoryObject` from `crates/brain-store/src/lib.rs`. -/
structure MemoryObject where
  id : String
  subject : String
  predicate : String
  value : JsonValue
  memory_type : String
  suppressed : Bool
deriving DecidableEq, Repr

/-- Embedding of `RuleEntry`. -/
structure RuleEntry where
  id : String
  description : String
  allowed_sinks : List String
deriving DecidableEq, Repr

/-- Embedding of `LedgerEvent`. -/
structure LedgerEvent where
  id : String
  ts : String
  operation : String
  payload : JsonValue
deriving DecidableEq, Repr

/-- Embedding of `SuppressionRecord`. -/
structure SuppressionRecord where
  id : String
  ts : String
  subject : String
  predicate : String
  scope : String
  reason : String
  suppressed_count : Nat
deriving DecidableEq, Repr

/-- Embedding of `AttachmentGrant`. -/
structure AttachmentGrant where
  agent_id : String
  model_id : String
  read_classes : List String
  write_classes : List String
  sinks : List String
  expires_at : Option String
deriving DecidableEq, Repr

/-- Embedding of `AuditEntry`. -/
structure AuditEntry where
  id : String
  ts : String
  actor : String
  action : String
  details : JsonValue
deriving DecidableEq, Repr

/-- Embedding of `BranchState`; the `memory_objects` BTreeMap is rendered as an
association list with unique keys kept in ascending key order. -/
structure BranchState where
  name : String
  memory_objects : List (String × MemoryObject)
  rules : List RuleEntry
  ledger : List LedgerEvent
  suppressions : List SuppressionRecord
deriving DecidableEq, Repr

/-- Embedding of `BrainState`; the `branches` BTreeMap is rendered as an association
list with unique keys kept in ascending key order. -/
structure BrainState where
  branches : List (String × BranchState)
  attachments : List AttachmentGrant
  audit : List AuditEntry
deriving DecidableEq, Repr

/-- Rust's `str` ordering (`Ord` on `String`, byte-wise lexicographic on
UTF-8, which coincides with lexicographic order on Unicode scalar values),
strict version, computably. -/
def charListLt : List Char → List Char → Bool
  | [], [] => false
  | [], _ :: _ => true
  | _ :: _, [] => false
  | a :: as, b :: bs =>
    if a.toNat < b.toNat then true
    else if b.toNat < a.toNat then false
    else charListLt as bs

/-- Rust's `str` ordering, non-strict version, computably. -/
def charListLe : List Char → List Char → Bool
  | [], _ => true
  | _ :: _, [] => false
  | a :: as, b :: bs =>
    if a.toNat < b.toNat then true
    else if b.toNat < a.toNat then false
    else charListLe as bs

/-- Embedding of `BTreeMap::get`: the value stored under the key. -/
def alGet : List (String × α) → String → Option α
  | [], _ => none
  | (k', v) :: rest, k => if k = k' then some v else alGet rest k

/-- Embedding of `BTreeMap::insert`: replace the value under an existing key, or insert a
new key at its ordered position. -/
def alInsert (k : String) (v : α) : List (String × α) → List (String × α)
  | [] => [(k, v)]
  | (k', v') :: rest =>
    if k = k' then (k, v) :: rest
    else if charListLt k.data k'.data then (k, v) :: (k', v') :: rest
    else (k', v') :: alInsert k v rest

/-- Embedding of `BTreeMap::get_mut` followed by writing a new value in place: the entry
under the key keeps its position (keys are unique in a BTreeMap). -/
def alUpdate (k : String) (v : α) (m : List (String × α)) : List (String × α) :=
  m.map (fun p => if p.1 = k then (k, v) else p)

/-- Modelled from the spec: XChaCha20-Poly1305 sealing from the
`chacha20poly1305` crate, which is not under src/.  A sealed blob records the
nonce, key and associated data used and the plaintext it seals; decryption
(below) succeeds exactly when key and associated data match (§4.1 AEAD,
§8 law 3).  Distinct nonces give distinct blobs, hence distinct digests. -/
structure EncryptedBlob (α : Type) where
  nonce : Nat
  key : DerivedKey
  aad : String
  plain : α
deriving DecidableEq, Repr

/-- Modelled from the spec: SHA-256 from the `sha2` crate, which is not under
src/.  `sha256 b` stands for the lowercase-hex digest of the canonical
serialized bytes of blob `b` (`sha256_hex(&serde_json::to_vec(&b)?)`);
constructor injectivity models collision resistance together with the
injectivity of canonical serialization. -/
inductive Digest where
  | sha256 (blob : EncryptedBlob BrainState)
deriving DecidableEq, Repr

/-- The signed fields of `BrainManifest`: everything except `signature_b64`.
`manifest_signing_payload` (serialize with the signature field cleared) is
modelled as this record. -/
structure ManifestCore where
  format_version : String
  brain_id : String
  name : String
  tenant_id : String
  created_at : String
  updated_at : String
  rmvm_proto_version : String
  schema_migrations : List String
  active_branch : String
  kdf_salt : Nat
  signing_public_key : Nat
  state_sha256 : Digest
  secret_env_var : String
deriving DecidableEq, Repr

/-- Modelled from the spec: an Ed25519 detached signature from the
`ed25519-dalek` crate, which is not under src/.  A signature records the
signing key and the signed payload; verification (below) succeeds exactly
when the payload matches and the key corresponds to the manifest's embedded
public key (§4.1, §8 law 1). -/
structure Sig where
  key : Nat
  payload : ManifestCore
deriving DecidableEq, Repr

/-- Modelled from the spec: the Ed25519 public key of a signing key.  No
secrecy property is stated anywhere, so the correspondence is modelled as
the identity. -/
def pubOf (k : Nat) : Nat := k

/-- Embedding of `BrainManifest`; the `signature_b64` string is `none` when cleared/empty
(an empty signature never parses as 64 signature bytes, so verification of a
cleared manifest fails, as in the source). -/
structure BrainManifest where
  core : ManifestCore
  signature : Option Sig
deriving DecidableEq, Repr

/-- Embedding of `BrainSummary`. -/
structure BrainSummary where
  brain_id : String
  name : String
  tenant_id : String
  updated_at : String
  active_branch : String
deriving DecidableEq, Repr

/-- Embedding of `MergeStrategy`. -/
inductive MergeStrategy where
  | ours
  | theirs
  | manual
deriving DecidableEq, Repr

/-- Embedding of `MergeReport`. -/
structure MergeReport where
  merged : Nat
  conflicts : List String
deriving DecidableEq, Repr

/-- Embedding of `BrainPackage` (export format). -/
structure BrainPackage where
  package_version : String
  manifest : BrainManifest
  state : EncryptedBlob BrainState
  signing_key : EncryptedBlob Nat
deriving DecidableEq, Repr

/-- The three files of one brain directory: `brain.json`, `state.enc`,
`keys/signing_key.enc`. -/
structure StoredBrain where
  manifest : BrainManifest
  state_enc : EncryptedBlob BrainState
  signing_key_enc : EncryptedBlob Nat
deriving DecidableEq, Repr

/-- The process environment (`std::env::var`). -/
def Env := String → Option String

/-- Embedding of `derive_key(secret, salt)` (Argon2id, symbolic). -/
def derive_key (secret : String) (salt : Nat) : DerivedKey :=
  .argon2 secret salt

/-- Embedding of `encrypt_json`/`encrypt_bytes`: seal a value under key and associated
data with the supplied fresh random nonce. -/
def encrypt_blob (key : DerivedKey) (aad : String) (plain : α) (nonce : Nat) :
    EncryptedBlob α :=
  { nonce := nonce, key := key, aad := aad, plain := plain }

/-- Embedding of `decrypt_json`/`decrypt_bytes`: AEAD opening, a single opaque error on
any mismatch. -/
def decrypt_blob (key : DerivedKey) (aad : String) (blob : EncryptedBlob α) :
    Except String α :=
  if blob.key = key ∧ blob.aad = aad then .ok blob.plain
  else .error "decryption failed"

/-- Embedding of `sign_manifest`: sign the canonical bytes of the manifest with the
signature field cleared. -/
def sign_manifest (m : BrainManifest) (sk : Nat) : Sig :=
  { key := sk, payload := m.core }

/-- Embedding of `verify_manifest_signature`: decode the embedded public key and the
detached signature, then verify over the canonical bytes of the manifest
with the signature field cleared. -/
def verify_manifest_signature (m : BrainManifest) : Except String Unit :=
  match m.signature with
  | none => .error "invalid signature"
  | some sig =>
    if pubOf sig.key = m.core.signing_public_key ∧ sig.payload = m.core then .ok ()
    else .error "manifest signature verification failed"

/-- Embedding of `env::var` with the store's missing-secret error. -/
def env_secret (env : Env) (name : String) : Except String String :=
  match env name with
  | some v => .ok v
  | none => .error "missing secret env var"

/-- Embedding of `BrainStore::load_by_dir`: read and verify the manifest, derive the key,
check the state checksum, decrypt state and signing key. -/
def load_by_dir (env : Env) (disk : StoredBrain) :
    Except String (BrainManifest × BrainState × Nat) := do
  let _ ← verify_manifest_signature disk.manifest
  let secret ← env_secret env disk.manifest.core.secret_env_var
  let key := derive_key secret disk.manifest.core.kdf_salt
  if Digest.sha256 disk.state_enc = disk.manifest.core.state_sha256 then do
    let state ← decrypt_blob key disk.manifest.core.brain_id disk.state_enc
    let sk ← decrypt_blob key disk.manifest.core.brain_id disk.signing_key_enc
    .ok (disk.manifest, state, sk)
  else .error "state checksum mismatch"

/-- The write-back tail of `BrainStore::mutate_brain`: bump `updated_at`,
reseal the state under the derived key with the fresh `nonce`, recompute
`state_sha256` over the new blob, re-sign with the loaded signing key, and
keep `signing_key.enc` as it was. -/
def reseal (now : String) (nonce : Nat) (sk : Nat) (secret : String)
    (old_sk_enc : EncryptedBlob Nat) (m1 : BrainManifest) (s1 : BrainState) : StoredBrain :=
  let core1 := { m1.core with updated_at := now }
  let key := derive_key secret core1.kdf_salt
  let state_enc := encrypt_blob key core1.brain_id s1 nonce
  let core2 := { core1 with state_sha256 := Digest.sha256 state_enc }
  { manifest :=
      { core := core2
        signature := some (sign_manifest { core := core2, signature := none } sk) }
    state_enc := state_enc
    signing_key_enc := old_sk_enc }

/-- Embedding of `BrainStore::mutate_brain`: load and verify (`load_by_dir`), apply the
caller's closure, then reseal/rehash/re-sign and write `brain.json` and
`state.enc` (`reseal` above; note the source reads the secret env var after
bumping `updated_at`, but `{ m1.core with updated_at := now }.secret_env_var`
is `m1.core.secret_env_var`, so the env read is written on the latter).
`now` is the wall clock and `nonce` the fresh random nonce.  The closure
additionally returns a value, standing for the values source closures
accumulate through captured variables.  An error anywhere means nothing is
written: the ok value is the new directory content. -/
def mutate_brain (env : Env) (now : String) (nonce : Nat) (disk : StoredBrain)
    (f : BrainManifest → BrainState → Except String (BrainManifest × BrainState × α)) :
    Except String (StoredBrain × α) := do
  let (manifest, state, sk) ← load_by_dir env disk
  let (m1, s1, a) ← f manifest state
  let secret ← env_secret env m1.core.secret_env_var
  .ok (reseal now nonce sk secret disk.signing_key_enc m1 s1, a)

/-- Embedding of `audit_entry(actor, action, details)`; the fresh uuid and timestamp are
parameters. -/
def audit_entry (id ts actor action : String) (details : JsonValue) : AuditEntry :=
  { id := id, ts := ts, actor := actor, action := action, details := details }

/-- The object loop of `BrainStore::merge`: for every memory object of the
source branch in key order, insert it when absent from the target, skip it
when present with identical `(value, suppressed)`, and otherwise tie-break
by strategy.  Returns the new target map, the merged count and the
conflict ids. -/
def mergeObjects (strategy : MergeStrategy) :
    List (String × MemoryObject) → List (String × MemoryObject) → Nat → List String →
    List (String × MemoryObject) × Nat × List String
  | [], target, merged, conflicts => (target, merged, conflicts)
  | (id, srcObj) :: rest, target, merged, conflicts =>
    match alGet target id with
    | none => mergeObjects strategy rest (alInsert id srcObj target) (merged + 1) conflicts
    | some dstObj =>
      if dstObj.value = srcObj.value ∧ dstObj.suppressed = srcObj.suppressed then
        mergeObjects strategy rest target merged conflicts
      else
        match strategy with
        | .ours => mergeObjects strategy rest target merged conflicts
        | .theirs => mergeObjects strategy rest (alInsert id srcObj target) (merged + 1) conflicts
        | .manual => mergeObjects strategy rest target merged (conflicts ++ [id])

/-- The closure `BrainStore::merge` passes to `mutate_brain`.  It fails with
`MergeConflicts` when the conflict list is non-empty, which aborts the
mutation before anything is written. -/
def mergeClosure (source target : String) (strategy : MergeStrategy)
    (aid ats : String) (m : BrainManifest) (state : BrainState) :
    Except String (BrainManifest × BrainState × MergeReport) := do
  match alGet state.branches source with
  | none => .error "unknown source branch"
  | some source_branch =>
    match alGet state.branches target with
    | none => .error "unknown target branch"
    | some target_branch =>
      let r := mergeObjects strategy source_branch.memory_objects
        target_branch.memory_objects 0 []
      if r.2.2 ≠ [] then .error "merge conflicts"
      else
        let target_branch1 := { target_branch with memory_objects := r.1 }
        let state1 :=
          { state with
            branches := alUpdate target target_branch1 state.branches
            audit := state.audit ++ [audit_entry aid ats "user" "brain.merge" ""] }
        .ok (m, state1, { merged := r.2.1, conflicts := r.2.2 })

/-- Embedding of `BrainStore::merge`. -/
def merge (env : Env) (now : String) (nonce : Nat) (aid ats : String)
    (disk : StoredBrain) (source target : String) (strategy : MergeStrategy) :
    Except String (StoredBrain × MergeReport) :=
  mutate_brain env now nonce disk (mergeClosure source target strategy aid ats)

/-- The match test of `forget_suppress`: same subject, same predicate, not
yet suppressed. -/
def forgetMatches (subject predicate : String) (o : MemoryObject) : Bool :=
  o.subject == subject && o.predicate == predicate && !o.suppressed

/-- The closure `BrainStore::forget_suppress` passes to `mutate_brain`: flip
`suppressed` on every matching object of the active branch, count the flips,
append a SuppressionRecord and an audit entry.  `sid`/`sts` are the fresh
record id and timestamp, `aid`/`ats` those of the audit entry. -/
def forgetClosure (subject predicate scope reason sid sts aid ats : String)
    (m : BrainManifest) (state : BrainState) :
    Except String (BrainManifest × BrainState × Nat) := do
  match alGet state.branches m.core.active_branch with
  | none => .error "active branch missing"
  | some branch =>
    let suppressed :=
      (branch.memory_objects.filter (fun p => forgetMatches subject predicate p.2)).length
    let objects1 := branch.memory_objects.map (fun p =>
      if forgetMatches subject predicate p.2 then
        (p.1, { p.2 with suppressed := true })
      else p)
    let branch1 :=
      { branch with
        memory_objects := objects1
        suppressions := branch.suppressions ++
          [{ id := sid, ts := sts, subject := subject, predicate := predicate
             scope := scope, reason := reason, suppressed_count := suppressed }] }
    let state1 :=
      { state with
        branches := alUpdate m.core.active_branch branch1 state.branches
        audit := state.audit ++ [audit_entry aid ats "user" "brain.forget.suppress" ""] }
    .ok (m, state1, suppressed)

/-- Embedding of `BrainStore::forget_suppress`. -/
def forget_suppress (env : Env) (now : String) (nonce : Nat) (sid sts aid ats : String)
    (disk : StoredBrain) (subject predicate scope reason : String) :
    Except String (StoredBrain × Nat) :=
  mutate_brain env now nonce disk
    (forgetClosure subject predicate scope reason sid sts aid ats)

/-- Embedding of `BrainStore::export_brain`: read the three files of the resolved brain,
re-verify the manifest signature, and write the BrainPackage.  The ok value
is the package written to `out_file`; no digest is recomputed. -/
def export_brain (disk : StoredBrain) : Except String BrainPackage := do
  let _ ← verify_manifest_signature disk.manifest
  .ok { package_version := "brain/v1", manifest := disk.manifest
        state := disk.state_enc, signing_key := disk.signing_key_enc }

/-- Embedding of `BrainStore::import_brain`.  `existing` is the set of brain ids already
present under `brains/`, `tok` the fresh six-character collision token,
`now` the wall clock.  The ok value is `none` for `verify_only`, otherwise
the brain id with the directory content written.  Note the manifest is
written with its original signature even when `brain_id` or
`name`/`updated_at` were rewritten. -/
def import_brain (existing : List String) (tok : String) (now : String)
    (package : BrainPackage) (name_override : Option String) (verify_only : Bool) :
    Except String (Option (String × StoredBrain)) := do
  let _ ← verify_manifest_signature package.manifest
  if Digest.sha256 package.state = package.manifest.core.state_sha256 then
    if verify_only then .ok none
    else
      let core0 := package.manifest.core
      let core1 :=
        match name_override with
        | some n => { core0 with name := n, updated_at := now }
        | none => core0
      let brain_id :=
        if existing.contains core1.brain_id then core1.brain_id ++ "-" ++ tok
        else core1.brain_id
      let core2 := { core1 with brain_id := brain_id }
      let manifest1 : BrainManifest :=
        { core := core2, signature := package.manifest.signature }
      .ok (some (brain_id,
        { manifest := manifest1, state_enc := package.state
          signing_key_enc := package.signing_key }))
  else .error "state checksum mismatch on import package"

/-- One entry of `fs::read_dir` over the brains directory, as `list_brains`
observes it: whether it is a directory, and its `brain.json` — `none` when
the file does not exist, `some none` when it exists but does not parse,
`some (some m)` when it parses to `m`. -/
structure DirEntry where
  is_dir : Bool
  manifest_file : Option (Option BrainManifest)
deriving DecidableEq, Repr

/-- The summary built from a manifest by `list_brains`. -/
def summaryOf (m : BrainManifest) : BrainSummary :=
  { brain_id := m.core.brain_id, name := m.core.name, tenant_id := m.core.tenant_id
    updated_at := m.core.updated_at, active_branch := m.core.active_branch }

/-- The directory scan loop of `list_brains`: non-directories and entries
without a `brain.json` are skipped with `continue`; a `brain.json` that does
not parse makes `read_json` fail and the `?` operator aborts the whole
call. -/
def collectSummaries : List DirEntry → Except String (List BrainSummary)
  | [] => .ok []
  | e :: rest =>
    if !e.is_dir then collectSummaries rest
    else
      match e.manifest_file with
      | none => collectSummaries rest
      | some none => .error "failed to parse brain.json"
      | some (some m) => do
        let out ← collectSummaries rest
        .ok (summaryOf m :: out)

/-- The comparison of `out.sort_by(|a, b| a.name.cmp(&b.name))`. -/
def summaryLe (a b : BrainSummary) : Prop :=
  charListLe a.name.data b.name.data = true

instance : DecidableRel summaryLe := fun a b =>
  inferInstanceAs (Decidable (charListLe a.name.data b.name.data = true))

/-- Embedding of `BrainStore::list_brains`: scan, then sort by name (`sort_by` is a
stable sort; rendered as insertion sort). -/
def list_brains (entries : List DirEntry) : Except String (List BrainSummary) := do
  let out ← collectSummaries entries
  .ok (List.insertionSort summaryLe out)

end BrainStore

namespace Proxy

/-- Modelled from the spec: `rmvm_proto::ExecutionStatus`, a prost enum of
the rmvm proto crate, which is not under src/.  `map_execute_response`
converts the raw i32 with `try_from(..).unwrap_or(Unspecified)`, so the
embedding works at the enum level, with every unknown value already folded
into `unspecified`. -/
inductive ExecutionStatus where
  | unspecified
  | ok
  | rejected
  | stall
  | authDenied
  | rangeExceeded
deriving DecidableEq, Repr

/-- Modelled from the spec: `ExecutionStatus::as_str_name` of the prost
enum (not under src/); the names follow §4.5 ("equals S's enum name") and
seed scenario E (`X-Cortex-Status: OK`). -/
def ExecutionStatus.asStrName : ExecutionStatus → String
  | .unspecified => "UNSPECIFIED"
  | .ok => "OK"
  | .rejected => "REJECTED"
  | .stall => "STALL"
  | .authDenied => "AUTH_DENIED"
  | .rangeExceeded => "RANGE_EXCEEDED"

/-- The kernel proof roots (`execute.proof`). -/
structure KernelProof where
  semantic_root : String
  trace_root : String
deriving DecidableEq, Repr

/-- Embedding of `execute.error`; `code_name` is the `ErrorCode::as_str_name` rendering
of the kernel error code (`error_code_name` in the source), carried at name
level since no claim inspects the numbering. -/
structure ExecutionError where
  code_name : String
  message : String
deriving DecidableEq, Repr

/-- Embedding of `execute.rendered`. -/
structure Rendered where
  verified_blocks : List String
deriving DecidableEq, Repr

/-- Embedding of `execute.stall`; `availability_name` is the
`HandleAvailability::as_str_name` rendering. -/
structure StallInfo where
  handle_ref : String
  availability_name : String
deriving DecidableEq, Repr

/-- Embedding of `rmvm_proto::ExecuteResponse` as consumed by the proxy. -/
structure ExecuteResponse where
  status : ExecutionStatus
  proof : Option KernelProof
  rendered : Option Rendered
  stall : Option StallInfo
  error : Option ExecutionError
deriving DecidableEq, Repr

/-- Modelled from the spec: `http::HeaderValue::from_str` of the `http`
crate (not under src/) accepts a string iff every byte is horizontal tab,
or at least 32 and not DEL (127). -/
def isValidHeaderValue (s : String) : Bool :=
  s.data.all (fun c => decide (c.toNat = 9 ∨ (32 ≤ c.toNat ∧ c.toNat ≠ 127)))

/-- Embedding of `push_header`: append the pair only when the value is a valid header
value (the constant names used by the proxy are always valid header
names). -/
def push_header (headers : List (String × String)) (name value : String) :
    List (String × String) :=
  if isValidHeaderValue value then headers ++ [(name, value)] else headers

/-- The proof stage of `cortex_headers`: when a proof is present, push the
two root headers. -/
def proofHeaders : Option KernelProof → List (String × String) → List (String × String)
  | some proof, headers =>
    push_header (push_header headers "x-cortex-semantic-root" proof.semantic_root)
      "x-cortex-trace-root" proof.trace_root
  | none, headers => headers

/-- The error stage of `cortex_headers`. -/
def errorHeaders : Option ExecutionError → List (String × String) → List (String × String)
  | some err, headers => push_header headers "x-cortex-error-code" err.code_name
  | none, headers => headers

/-- The stall stage of `cortex_headers`. -/
def stallHeaders : Option StallInfo → List (String × String) → List (String × String)
  | some stall, headers =>
    push_header (push_header headers "x-cortex-stall-handle" stall.handle_ref)
      "x-cortex-stall-availability" stall.availability_name
  | none, headers => headers

/-- Embedding of `cortex_headers` from `crates/cortex-app/src/proxy.rs`: the status and
plan-source headers, then the proof, error and stall stages in source
order. -/
def cortex_headers (execute : ExecuteResponse) (plan_source : String) :
    List (String × String) :=
  stallHeaders execute.stall
    (errorHeaders execute.error
      (proofHeaders execute.proof
        (push_header (push_header [] "x-cortex-status" execute.status.asStrName)
          "x-cortex-plan-source" plan_source)))

/-- The parts of the mapped HTTP response the claims are about: the status
code, the inserted `X-Cortex-*` headers, and the assistant content of the
success body (`none` for the OpenAI-shaped error bodies). -/
structure HttpResponse where
  status : Nat
  headers : List (String × String)
  content : Option String
deriving DecidableEq, Repr

/-- The `choices[0].message.content` of the Ok branch: joined
`verified_blocks`, or the placeholder when empty. -/
def okContent (execute : ExecuteResponse) : String :=
  let verified_blocks :=
    match execute.rendered with
    | some r => r.verified_blocks
    | none => []
  if verified_blocks.isEmpty then "No verified output."
  else String.intercalate "\n\n" verified_blocks

/-- Embedding of `map_execute_response` from `crates/cortex-app/src/proxy.rs`, restricted
to status code, headers and assistant content.  `headers_out` is inserted
into the response in every branch (directly for Ok, through
`ApiError::with_headers`/the struct literals otherwise). -/
def map_execute_response (execute : ExecuteResponse)
    (headers_out : List (String × String)) : HttpResponse :=
  match execute.status with
  | .ok => { status := 200, headers := headers_out, content := some (okContent execute) }
  | .rejected => { status := 400, headers := headers_out, content := none }
  | .stall => { status := 503, headers := headers_out, content := none }
  | .authDenied => { status := 403, headers := headers_out, content := none }
  | .rangeExceeded => { status := 429, headers := headers_out, content := none }
  | .unspecified => { status := 502, headers := headers_out, content := none }

end Proxy

namespace PlannerGuard

/-- The per-operation side conditions shared by the claimed and the amended
acceptance predicates: handle/selector refs must appear in the manifest
lists, register references must appear in `defined`. -/
def ClaimOpOk (handle_refs selector_refs defined : List String) : Op → Prop
  | .fetch f => f.handle_ref ∈ handle_refs
  | .applySelector sel => sel.selector_ref ∈ selector_refs
  | .resolve r => r.in_reg ∈ defined
  | .filter f => f.in_reg ∈ defined
  | .join j => j.left_reg ∈ defined ∧ j.right_reg ∈ defined
  | .project p => p.in_reg ∈ defined
  | .assertOp a => ∀ b ∈ a.bindings, b.2.reg ∈ defined

/-- Claim C2's acceptance condition as stated, accumulated over the steps in
source order: non-empty unique out names, manifest-known handle/selector
refs, and every register reference naming a step defined strictly earlier
(the outs of strictly earlier steps only). -/
def ClaimAccepts (handle_refs selector_refs : List String) :
    List String → List Step → Prop
  | _, [] => True
  | defined, step :: rest =>
    step.out ≠ "" ∧ step.out ∉ defined ∧
    (∀ op, step.op = some op → ClaimOpOk handle_refs selector_refs defined op) ∧
    ClaimAccepts handle_refs selector_refs (defined ++ [step.out]) rest

/-- The amended acceptance condition: every step must carry an operation,
its out must be non-blank (not merely non-empty), out names are unique, and
a register reference may name an earlier step or the referencing step's own
out register. -/
def SpecAccepts (handle_refs selector_refs : List String) :
    List String → List Step → Prop
  | _, [] => True
  | defined, step :: rest =>
    isBlank step.out = false ∧ step.out ∉ defined ∧
    (∃ op, step.op = some op ∧
      ClaimOpOk handle_refs selector_refs (defined ++ [step.out]) op) ∧
    SpecAccepts handle_refs selector_refs (defined ++ [step.out]) rest

/-- A plan whose single step's operation reads the step's own out
register. -/
def selfRefPlan : RmvmPlan :=
  { request_id := "r"
    steps := [{ out := "a", op := some (.resolve { in_reg := "a", policy_id := "" }) }]
    outputs := [] }

/-- A manifest with no handles and no selectors. -/
def emptyManifest : PublicManifest :=
  { request_id := "r", handles := [], selectors := [], context := [], budget := none }

/-- A manifest with one handle `H1` and no selector. -/
def oneHandleManifest : PublicManifest :=
  { request_id := "req-1"
    handles := [{ ref := "H1", type_id := "normative.preference", availability := 1
                  signature_summary := "prefers_beverage=tea", conflict_group_id := "c1" }]
    selectors := []
    context := []
    budget := none }

/-- The deterministic plan for `oneHandleManifest` (seed scenario D). -/
def oneHandlePlan : RmvmPlan :=
  { request_id := "req-1"
    steps :=
      [ { out := "r0", op := some (.fetch { handle_ref := "H1" }) }
      , { out := "r1"
          op := some (.project { in_reg := "r0", field_paths := ["meta.subject"] }) }
      , { out := "r2"
          op := some (.assertOp
            { assertion_type := assertWorldFactCode
              bindings := [("subject", { reg := "r1", field_path := "meta.subject" })]
              citations := [] }) } ]
    outputs := [{ reg := "r2" }] }

end PlannerGuard

namespace Proxy

/-- The status table of §4.5. -/
def specStatusCode : ExecutionStatus → Nat
  | .ok => 200
  | .rejected => 400
  | .stall => 503
  | .authDenied => 403
  | .rangeExceeded => 429
  | .unspecified => 502

/-- A kernel response whose semantic root is not a valid header value. -/
def newlineRootResponse : ExecuteResponse :=
  { status := .ok
    proof := some { semantic_root := "\n", trace_root := "root2" }
    rendered := none
    stall := none
    error := none }

end Proxy

namespace BrainStore

instance : IsTotal BrainSummary summaryLe := by
  refine ⟨fun a b => ?_⟩
  unfold summaryLe
  suffices h : ∀ as bs : List Char, charListLe as bs = true ∨ charListLe bs as = true from
    h a.name.data b.name.data
  intro as
  induction as with
  | nil => intro bs; left; rfl
  | cons a as ih =>
    intro bs
    cases bs with
    | nil => right; rfl
    | cons b bs =>
      rcases Nat.lt_trichotomy a.toNat b.toNat with h | h | h
      · left; simp [charListLe, h]
      · have h1 : ¬ a.toNat < b.toNat := by omega
        have h2 : ¬ b.toNat < a.toNat := by omega
        rcases ih bs with hc | hc
        · left; simp [charListLe, h1, h2, hc]
        · right; simp [charListLe, h1, h2, hc]
      · right; simp [charListLe, h]

instance : IsTrans BrainSummary summaryLe := by
  refine ⟨fun a b c hab hbc => ?_⟩
  unfold summaryLe at hab hbc ⊢
  revert hab hbc
  suffices h : ∀ (as bs cs : List Char), charListLe as bs = true →
      charListLe bs cs = true → charListLe as cs = true from h _ _ _
  intro as
  induction as with
  | nil => intro bs cs _ _; rfl
  | cons a as ih =>
    intro bs cs hab hbc
    cases bs with
    | nil => simp [charListLe] at hab
    | cons b bs =>
      cases cs with
      | nil => simp [charListLe] at hbc
      | cons c cs =>
        by_cases h1 : a.toNat < b.toNat
        · by_cases h2 : b.toNat < c.toNat
          · have hac : a.toNat < c.toNat := Nat.lt_trans h1 h2
            simp [charListLe, hac]
          · by_cases h3 : c.toNat < b.toNat
            · simp [charListLe, h2, h3] at hbc
            · have hac : a.toNat < c.toNat := by omega
              simp [charListLe, hac]
        · by_cases h4 : b.toNat < a.toNat
          · simp [charListLe, h1, h4] at hab
          · by_cases h2 : b.toNat < c.toNat
            · have hac : a.toNat < c.toNat := by omega
              simp [charListLe, hac]
            · by_cases h3 : c.toNat < b.toNat
              · simp [charListLe, h2, h3] at hbc
              · have g1 : ¬ a.toNat < c.toNat := by omega
                have g2 : ¬ c.toNat < a.toNat := by omega
                have hab1 : charListLe as bs = true := by
                  simpa [charListLe, h1, h4] using hab
                have hbc1 : charListLe bs cs = true := by
                  simpa [charListLe, h2, h3] using hbc
                simpa [charListLe, g1, g2] using ih bs cs hab1 hbc1

/-- The summaries `list_brains` keeps before sorting: directory entries
whose `brain.json` exists and parses. -/
def parsedSummaries (entries : List DirEntry) : List BrainSummary :=
  entries.filterMap (fun e =>
    if e.is_dir then
      match e.manifest_file with
      | some (some m) => some (summaryOf m)
      | _ => none
    else none)

/-- Fixture: a process environment holding the default passphrase. -/
def wEnv : Env := fun n => if n = "CORTEX_BRAIN_SECRET" then some "pw" else none

/-- Fixture: an unsuppressed preference object. -/
def wObjA : MemoryObject :=
  { id := "m1", subject := "user:x", predicate := "prefers_beverage"
    value := "tea", memory_type := "normative.preference", suppressed := false }

/-- Fixture: an already suppressed object with the same subject and
predicate. -/
def wObjB : MemoryObject :=
  { id := "m2", subject := "user:x", predicate := "prefers_beverage"
    value := "coffee", memory_type := "normative.preference", suppressed := true }

/-- Fixture: the `main` branch holding the two objects. -/
def wBranch : BranchState :=
  { name := "main", memory_objects := [("m1", wObjA), ("m2", wObjB)]
    rules := [], ledger := [], suppressions := [] }

/-- Fixture: a brain state with the single `main` branch. -/
def wState : BrainState := { branches := [("main", wBranch)], attachments := [], audit := [] }

/-- Fixture: the key derived from the passphrase and salt. -/
def wKey : DerivedKey := .argon2 "pw" 5

/-- Fixture: the sealed state blob. -/
def wBlob : EncryptedBlob BrainState := { nonce := 1, key := wKey, aad := "demo-1", plain := wState }

/-- Fixture: the signed manifest fields of the brain `demo-1`. -/
def wCore : ManifestCore :=
  { format_version := "brain/v1", brain_id := "demo-1", name := "demo"
    tenant_id := "tenant-a", created_at := "t0", updated_at := "t0"
    rmvm_proto_version := "cortex_rmvm_v3_1", schema_migrations := ["brain/v1:init"]
    active_branch := "main", kdf_salt := 5, signing_public_key := 9
    state_sha256 := Digest.sha256 wBlob, secret_env_var := "CORTEX_BRAIN_SECRET" }

/-- Fixture: the signed manifest of `demo-1`. -/
def wManifest : BrainManifest := { core := wCore, signature := some { key := 9, payload := wCore } }

/-- Fixture: the sealed signing-key blob of `demo-1`. -/
def wSkBlob : EncryptedBlob Nat := { nonce := 2, key := wKey, aad := "demo-1", plain := 9 }

/-- Fixture: the brain directory of `demo-1`. -/
def wDisk : StoredBrain := { manifest := wManifest, state_enc := wBlob, signing_key_enc := wSkBlob }

/-- Fixture: a state blob resealed under a different nonce: its digest
differs from `wCore.state_sha256` while the manifest signature still
verifies. -/
def xBlob : EncryptedBlob BrainState := { nonce := 3, key := wKey, aad := "demo-1", plain := wState }

/-- Fixture: the directory of `demo-1` after its `state.enc` was replaced by
`xBlob`, so the stored digest no longer matches the stored blob. -/
def xDisk : StoredBrain := { manifest := wManifest, state_enc := xBlob, signing_key_enc := wSkBlob }

/-- Fixture: the exported package of `demo-1`. -/
def wPackage : BrainPackage :=
  { package_version := "brain/v1", manifest := wManifest, state := wBlob, signing_key := wSkBlob }

/-- Fixture: a source branch `exp` whose `m1` disagrees with `main`'s `m1`
in `value`. -/
def cBranchSrc : BranchState :=
  { name := "exp"
    memory_objects :=
      [("m1", { id := "m1", subject := "user:x", predicate := "prefers_beverage"
                value := "water", memory_type := "normative.preference", suppressed := false })]
    rules := [], ledger := [], suppressions := [] }

/-- Fixture: a brain state with branches `exp` and `main` in key order. -/
def cState : BrainState :=
  { branches := [("exp", cBranchSrc), ("main", wBranch)], attachments := [], audit := [] }

/-- Fixture: sealed blob of the two-branch state. -/
def cBlob : EncryptedBlob BrainState := { nonce := 1, key := wKey, aad := "demo-1", plain := cState }

/-- Fixture: manifest fields for the two-branch brain. -/
def cCore : ManifestCore := { wCore with state_sha256 := Digest.sha256 cBlob }

/-- Fixture: signed manifest for the two-branch brain. -/
def cManifest : BrainManifest := { core := cCore, signature := some { key := 9, payload := cCore } }

/-- Fixture: the two-branch brain directory. -/
def cDisk : StoredBrain := { manifest := cManifest, state_enc := cBlob, signing_key_enc := wSkBlob }

end BrainStore

/-!
Theorems.  Each claim of the specification review is settled by exactly one
theorem below, with a witness or counterexample where called for.
-/

section C10

open PlannerGuard

/-- Claim C10: `validate_plan_against_manifest` never inspects the plan's
outputs list: validation of two plans with the same steps against the same
manifest agrees whatever their outputs lists are, so a plan whose steps all
validate is accepted even when its outputs list is empty or names a
register no step defines. -/
theorem c10_validator_ignores_outputs (manifest : PublicManifest) (rid : String)
    (steps : List Step) (outs1 outs2 : List OutputSpec) :
    validate_plan_against_manifest { request_id := rid, steps := steps, outputs := outs1 }
      manifest =
    validate_plan_against_manifest { request_id := rid, steps := steps, outputs := outs2 }
      manifest := rfl

end C10

section C1

open BrainStore

/-- Claim C1 (amended): `export_brain` re-verifies the manifest signature
and refuses on signature failure, but it does not recompute the digest of
the persisted state blob: the stored `state_sha256` is never compared
against the blob, so a brain whose digest mismatches is still exported. -/
theorem c1_export_checks_signature_only (disk : StoredBrain) :
    (verify_manifest_signature disk.manifest = .ok () →
      export_brain disk = .ok
        { package_version := "brain/v1", manifest := disk.manifest
          state := disk.state_enc, signing_key := disk.signing_key_enc }) ∧
    (∀ e, verify_manifest_signature disk.manifest = .error e →
      export_brain disk = .error e) := by
  refine ⟨fun h => ?_, fun e h => ?_⟩
  · unfold export_brain
    rw [h]
    rfl
  · unfold export_brain
    rw [h]
    rfl

/-- Claim C1, counterexample: `xDisk` stores an encrypted state blob whose
digest differs from the manifest's `state_sha256`, yet `export_brain`
succeeds and writes the package. -/
theorem c1_counterexample :
    export_brain xDisk =
        .ok { package_version := "brain/v1", manifest := wManifest
              state := xBlob, signing_key := wSkBlob } ∧
      Digest.sha256 xDisk.state_enc ≠ xDisk.manifest.core.state_sha256 := by
  constructor
  · decide
  · decide

/-- Claim C1, witness: the amended theorem applied to the intact brain
directory `wDisk`. -/
theorem c1_witness : export_brain wDisk = .ok wPackage :=
  (c1_export_checks_signature_only wDisk).1 (by decide)

end C1

section C8

open BrainStore

/-- The scan loop returns exactly the summaries of parseable manifests when
every `brain.json` that exists parses. -/
theorem collectSummaries_ok (entries : List DirEntry)
    (hp : ∀ e ∈ entries, e.is_dir = true → e.manifest_file ≠ some none) :
    collectSummaries entries = .ok (parsedSummaries entries) := by
  induction entries with
  | nil => rfl
  | cons e rest ih =>
    have hrest : ∀ e ∈ rest, e.is_dir = true → e.manifest_file ≠ some none :=
      fun x hx => hp x (List.mem_cons_of_mem e hx)
    have ihr := ih hrest
    by_cases hd : e.is_dir = true
    · cases hmf : e.manifest_file with
      | none =>
        simp [collectSummaries, parsedSummaries, hd, hmf, ihr, List.filterMap_cons]
      | some mo =>
        cases mo with
        | none => exact absurd hmf (hp e (List.mem_cons_self e rest) hd)
        | some m =>
          simp only [collectSummaries, hd, hmf]
          rw [ihr]
          simp [parsedSummaries, List.filterMap_cons, hd, hmf]
          rfl
    · have hd' : e.is_dir = false := by
        cases hb : e.is_dir
        · rfl
        · exact absurd hb hd
      simp [collectSummaries, parsedSummaries, hd', List.filterMap_cons, ihr]

/-- Claim C8 (amended): `list_brains` skips entries that are not directories
or have no `brain.json`, returns a summary for each entry whose manifest
parses, sorted by name — but a `brain.json` that exists and does not parse
makes the whole call fail rather than being skipped. -/
theorem c8_list_brains (entries : List DirEntry)
    (hp : ∀ e ∈ entries, e.is_dir = true → e.manifest_file ≠ some none) :
    list_brains entries =
      .ok (List.insertionSort summaryLe (parsedSummaries entries)) ∧
    List.Sorted summaryLe (List.insertionSort summaryLe (parsedSummaries entries)) := by
  constructor
  · unfold list_brains
    rw [collectSummaries_ok entries hp]
    rfl
  · exact List.sorted_insertionSort summaryLe (parsedSummaries entries)

/-- Claim C8, counterexample: a single directory entry whose `brain.json`
exists but does not parse makes `list_brains` fail; the claim says such an
entry is skipped and the call returns the empty list. -/
theorem c8_counterexample :
    list_brains [{ is_dir := true, manifest_file := some none }] =
      .error "failed to parse brain.json" := by decide

/-- Claim C8, witness: two parseable entries out of four mixed entries are
returned, sorted by name. -/
theorem c8_witness :
    list_brains
      [ { is_dir := true, manifest_file := some (some wManifest) }
      , { is_dir := false, manifest_file := none }
      , { is_dir := true, manifest_file := none }
      , { is_dir := true
          manifest_file := some (some { core := { wCore with name := "alpha", brain_id := "alpha-1" }
                                        signature := none }) } ] =
      .ok [ summaryOf { core := { wCore with name := "alpha", brain_id := "alpha-1" }
                        signature := none }
          , summaryOf wManifest ] := by
  have h := c8_list_brains
    [ { is_dir := true, manifest_file := some (some wManifest) }
    , { is_dir := false, manifest_file := none }
    , { is_dir := true, manifest_file := none }
    , { is_dir := true
        manifest_file := some (some { core := { wCore with name := "alpha", brain_id := "alpha-1" }
                                      signature := none }) } ]
    (by decide)
  rw [h.1]
  decide

end C8

section Helpers

/-- Inversion for a successful `Except` bind. -/
theorem except_bind_ok_iff {α β : Type} (x : Except String α) (f : α → Except String β)
    (b : β) : (x >>= f) = .ok b ↔ ∃ a, x = .ok a ∧ f a = .ok b := by
  cases x with
  | error e =>
    constructor
    · intro h; exact nomatch h
    · rintro ⟨a, ha, -⟩; exact nomatch ha
  | ok a =>
    constructor
    · intro h; exact ⟨a, rfl, h⟩
    · rintro ⟨a2, ha, hf⟩
      injection ha with h2
      subst h2
      exact hf

end Helpers

section C3

open BrainStore

/-- Claim C3 (amended): a successful non-verify-only `import_brain` that
rewrites nothing — no id collision and no `name_override` — stores the
package manifest unchanged, so its signature still verifies (invariant I1).
When the id is suffixed or the name replaced, the manifest is written with
its original signature and I1 breaks (see the counterexample). -/
theorem c3_import_preserves_signature_without_rewrite
    (existing : List String) (tok now : String) (package : BrainPackage)
    (id : String) (disk : StoredBrain)
    (hno : existing.contains package.manifest.core.brain_id = false)
    (h : import_brain existing tok now package none false = .ok (some (id, disk))) :
    disk.manifest = package.manifest ∧
    verify_manifest_signature disk.manifest = .ok () := by
  unfold import_brain at h
  rw [except_bind_ok_iff] at h
  obtain ⟨u, hv, h⟩ := h
  split at h
  · simp only [hno, Bool.false_eq_true, if_false, Except.ok.injEq, Option.some.injEq,
      Prod.mk.injEq] at h
    obtain ⟨-, hdisk⟩ := h
    subst hdisk
    refine ⟨rfl, ?_⟩
    cases u
    exact hv
  · exact nomatch h

/-- Claim C3, counterexample: importing `wPackage` while `demo-1` already
exists suffixes the brain id and writes the manifest with its original
signature, which no longer verifies — invariant I1 fails on the imported
brain directory. -/
theorem c3_counterexample :
    import_brain ["demo-1"] "abc123" "t1" wPackage none false =
      .ok (some ("demo-1-abc123",
        { manifest := { core := { wCore with brain_id := "demo-1-abc123" }
                        signature := some { key := 9, payload := wCore } }
          state_enc := wBlob, signing_key_enc := wSkBlob })) ∧
    verify_manifest_signature
      { core := { wCore with brain_id := "demo-1-abc123" }
        signature := some { key := 9, payload := wCore } } =
      .error "manifest signature verification failed" := by
  constructor
  · decide
  · decide

/-- Claim C3, witness: importing `wPackage` into an empty store keeps the
manifest unchanged and I1 holds. -/
theorem c3_witness :
    wDisk.manifest = wPackage.manifest ∧
    verify_manifest_signature wDisk.manifest = .ok () :=
  c3_import_preserves_signature_without_rewrite [] "abc123" "t1" wPackage "demo-1" wDisk
    (by decide) (by decide)

end C3

section C6

open PlannerGuard

/-- Claim C6: for every manifest with at least one handle or at least one
selector, `deterministic_plan_from_manifest` succeeds and its plan passes
`validate_plan_against_manifest` against the same manifest; with no handles
and no selectors it fails. -/
theorem c6_deterministic_plan_valid (rid subj : String) (manifest : PublicManifest) :
    ((manifest.handles ≠ [] ∨ manifest.selectors ≠ []) →
      ∀ plan, deterministic_plan_from_manifest rid subj manifest = .ok plan →
        validate_plan_against_manifest plan manifest = .ok ()) ∧
    ((manifest.handles ≠ [] ∨ manifest.selectors ≠ []) →
      (deterministic_plan_from_manifest rid subj manifest).isOk = true) ∧
    (manifest.handles = [] → manifest.selectors = [] →
      deterministic_plan_from_manifest rid subj manifest =
        .error "manifest has no handles/selectors for deterministic fallback") := by
  obtain ⟨mrid, handles, selectors, ctx, bud⟩ := manifest
  refine ⟨?_, ?_, ?_⟩
  · intro hne plan hplan
    cases handles with
    | cons handle t =>
      have hp : plan =
          { request_id := rid
            steps :=
              [ { out := "r0", op := some (.fetch { handle_ref := handle.ref }) }
              , { out := "r1"
                  op := some (.project { in_reg := "r0", field_paths := ["meta.subject"] }) }
              , { out := "r2"
                  op := some (.assertOp
                    { assertion_type := assertWorldFactCode
                      bindings := [("subject", { reg := "r1", field_path := "meta.subject" })]
                      citations := [] }) } ]
            outputs := [{ reg := "r2" }] } := by
        injection hplan.symm
      subst hp
      simp +decide [validate_plan_against_manifest, validateSteps, stepCheck, checkOp,
        isBlank, List.contains_cons]
    | nil =>
      cases selectors with
      | cons selector t =>
        have hp : plan =
            { request_id := rid
              steps :=
                [ { out := "r0"
                    op := some (.applySelector
                      { selector_ref := selector.sel
                        params := [("subject", .s subj)] }) }
                , { out := "r1"
                    op := some (.project { in_reg := "r0", field_paths := ["set_count"] }) }
                , { out := "r2"
                    op := some (.assertOp
                      { assertion_type := assertWorldFactCode
                        bindings := [("subject", { reg := "r1", field_path := "set_count" })]
                        citations := [] }) } ]
              outputs := [{ reg := "r2" }] } := by
          injection hplan.symm
        subst hp
        simp +decide [validate_plan_against_manifest, validateSteps, stepCheck, checkOp,
          isBlank, List.contains_cons]
      | nil =>
        rcases hne with hne | hne
        · exact absurd rfl hne
        · exact absurd rfl hne
  · intro hne
    cases handles with
    | cons handle t => rfl
    | nil =>
      cases selectors with
      | cons selector t => rfl
      | nil =>
        rcases hne with hne | hne
        · exact absurd rfl hne
        · exact absurd rfl hne
  · intro h1 h2
    subst h1
    subst h2
    rfl

/-- Claim C6, witness: the one-handle manifest of seed scenario D yields a
plan and it validates. -/
theorem c6_witness :
    (deterministic_plan_from_manifest "req-1" "user:demo" oneHandleManifest).isOk = true ∧
    validate_plan_against_manifest oneHandlePlan oneHandleManifest = .ok () :=
  ⟨(c6_deterministic_plan_valid "req-1" "user:demo" oneHandleManifest).2.1
      (Or.inl (by decide)),
   (c6_deterministic_plan_valid "req-1" "user:demo" oneHandleManifest).1
      (Or.inl (by decide)) oneHandlePlan rfl⟩

end C6

section C2

open PlannerGuard

/-- Embedding of `List.contains` agrees with membership for strings. -/
theorem contains_true_iff (l : List String) (a : String) :
    l.contains a = true ↔ a ∈ l := List.elem_iff

/-- An if-guarded unit check succeeds exactly when its condition holds. -/
theorem ite_ok_iff (c : Bool) (e : String) :
    (if c then (Except.ok () : Except String Unit) else .error e) = .ok () ↔ c = true := by
  cases c
  · constructor
    · intro h; exact nomatch h
    · intro h; exact nomatch h
  · simp

/-- The per-operation checks succeed exactly under the side conditions. -/
theorem checkOp_ok_iff (hrefs srefs regs : List String) (op : Op) :
    checkOp hrefs srefs regs op = .ok () ↔ ClaimOpOk hrefs srefs regs op := by
  cases op <;>
    simp [checkOp, ClaimOpOk, ite_ok_iff, Bool.and_eq_true, List.all_eq_true,
      contains_true_iff]

/-- The required-op check succeeds exactly when an operation is present and
its side conditions hold. -/
theorem stepCheck_ok_iff (hrefs srefs regs : List String) (o : Option Op) :
    stepCheck hrefs srefs regs o = .ok () ↔
      ∃ op, o = some op ∧ ClaimOpOk hrefs srefs regs op := by
  cases o with
  | none =>
    constructor
    · intro h; exact nomatch h
    · rintro ⟨op, h, -⟩; exact nomatch h
  | some op => simp [stepCheck, checkOp_ok_iff]

/-- The step loop succeeds exactly under the amended acceptance
predicate. -/
theorem validateSteps_ok_iff (hrefs srefs : List String) (steps : List Step) :
    ∀ regs, validateSteps hrefs srefs regs steps = .ok () ↔
      SpecAccepts hrefs srefs regs steps := by
  induction steps with
  | nil => intro regs; simp [validateSteps, SpecAccepts]
  | cons step rest ih =>
    intro regs
    simp only [validateSteps, SpecAccepts]
    by_cases hb : isBlank step.out = true
    · rw [if_pos hb]
      constructor
      · intro h; exact nomatch h
      · rintro ⟨h1, -⟩
        rw [hb] at h1
        exact nomatch h1
    · have hbf : isBlank step.out = false := by
        cases h2 : isBlank step.out
        · rfl
        · exact absurd h2 hb
      rw [if_neg hb]
      by_cases hc : regs.contains step.out = true
      · rw [if_pos hc]
        constructor
        · intro h; exact nomatch h
        · rintro ⟨-, h2, -⟩
          exact absurd ((contains_true_iff regs step.out).mp hc) h2
      · rw [if_neg hc]
        have hnm : step.out ∉ regs := fun hm => hc ((contains_true_iff regs step.out).mpr hm)
        rw [except_bind_ok_iff]
        constructor
        · rintro ⟨u, hstep, hrest⟩
          cases u
          obtain ⟨op, hop, hcl⟩ := (stepCheck_ok_iff _ _ _ _).mp hstep
          exact ⟨hbf, hnm, ⟨op, hop, hcl⟩, (ih _).mp hrest⟩
        · rintro ⟨-, -, ⟨op, hop, hcl⟩, hrest⟩
          refine ⟨(), ?_, (ih _).mpr hrest⟩
          exact (stepCheck_ok_iff _ _ _ _).mpr ⟨op, hop, hcl⟩

/-- Claim C2 (amended): `validate_plan_against_manifest` accepts a plan iff
every step carries an operation, every step's out is non-blank and unique
across the plan, every `fetch.handleRef` appears among the manifest's handle
refs, every `applySelector.selectorRef` among its selector refs, and every
register reference (`resolve.inReg`, `filter.inReg`, `project.inReg`,
`join.leftReg`, `join.rightReg`, each assert binding's `reg`) names a step
defined at or before the referencing step — the validator inserts the
step's own out into the defined set before checking the operation, so a
self-reference is accepted, contrary to the claim's "strictly earlier". -/
theorem c2_validate_iff (plan : RmvmPlan) (manifest : PublicManifest) :
    validate_plan_against_manifest plan manifest = .ok () ↔
      SpecAccepts (manifest.handles.map (fun h => h.ref))
        (manifest.selectors.map (fun s => s.sel)) [] plan.steps :=
  validateSteps_ok_iff _ _ plan.steps []

/-- Claim C2, counterexample: the validator accepts `selfRefPlan`, whose
single step's `resolve.inReg` names that step's own out register, while the
claim's conditions (register references name strictly earlier steps) fail
on it — the claimed equivalence is false at this plan. -/
theorem c2_counterexample :
    validate_plan_against_manifest selfRefPlan emptyManifest = .ok () ∧
    ¬ ClaimAccepts (emptyManifest.handles.map (fun h => h.ref))
        (emptyManifest.selectors.map (fun s => s.sel)) [] selfRefPlan.steps := by
  constructor
  · decide
  · intro h
    obtain ⟨-, -, h3, -⟩ := h
    have h4 := h3 (.resolve { in_reg := "a", policy_id := "" }) rfl
    simp [ClaimOpOk] at h4

/-- Claim C2, witness: the equivalence applied to the deterministic
one-handle plan, extracting the amended acceptance conditions. -/
theorem c2_witness :
    SpecAccepts (oneHandleManifest.handles.map (fun h => h.ref))
      (oneHandleManifest.selectors.map (fun s => s.sel)) [] oneHandlePlan.steps :=
  (c2_validate_iff oneHandlePlan oneHandleManifest).mp (by decide)

end C2

section C5

open Proxy

/-- Embedding of `push_header` keeps existing pairs. -/
theorem mem_push_header (headers : List (String × String)) (n v : String)
    (p : String × String) (h : p ∈ headers) : p ∈ push_header headers n v := by
  unfold push_header
  split
  · exact List.mem_append_left _ h
  · exact h

/-- Embedding of `push_header` records the pair when the value is valid. -/
theorem mem_push_header_self (headers : List (String × String)) (n v : String)
    (hv : isValidHeaderValue v = true) : (n, v) ∈ push_header headers n v := by
  unfold push_header
  rw [if_pos hv]
  exact List.mem_append_right _ (List.mem_singleton.mpr rfl)

/-- The proof stage keeps existing pairs. -/
theorem mem_proofHeaders (o : Option KernelProof) (headers : List (String × String))
    (p : String × String) (h : p ∈ headers) : p ∈ proofHeaders o headers := by
  cases o with
  | none => exact h
  | some proof => exact mem_push_header _ _ _ _ (mem_push_header _ _ _ _ h)

/-- The error stage keeps existing pairs. -/
theorem mem_errorHeaders (o : Option ExecutionError) (headers : List (String × String))
    (p : String × String) (h : p ∈ headers) : p ∈ errorHeaders o headers := by
  cases o with
  | none => exact h
  | some err => exact mem_push_header _ _ _ _ h

/-- The stall stage keeps existing pairs. -/
theorem mem_stallHeaders (o : Option StallInfo) (headers : List (String × String))
    (p : String × String) (h : p ∈ headers) : p ∈ stallHeaders o headers := by
  cases o with
  | none => exact h
  | some stall => exact mem_push_header _ _ _ _ (mem_push_header _ _ _ _ h)

/-- Every status name is a valid header value. -/
theorem asStrName_valid (s : ExecutionStatus) :
    isValidHeaderValue s.asStrName = true := by
  cases s <;> decide

/-- The mapped response carries exactly the supplied header list. -/
theorem map_execute_response_headers (execute : ExecuteResponse)
    (headers_out : List (String × String)) :
    (map_execute_response execute headers_out).headers = headers_out := by
  unfold map_execute_response
  cases execute.status <;> rfl

/-- The status header is always present in `cortex_headers`. -/
theorem cortex_headers_status (execute : ExecuteResponse) (plan_source : String) :
    ("x-cortex-status", execute.status.asStrName) ∈ cortex_headers execute plan_source := by
  unfold cortex_headers
  exact mem_stallHeaders _ _ _ (mem_errorHeaders _ _ _ (mem_proofHeaders _ _ _
    (mem_push_header _ _ _ _
      (mem_push_header_self [] "x-cortex-status" execute.status.asStrName
        (asStrName_valid execute.status)))))

/-- When a proof is present, each root whose string is a valid header value
is recorded in `cortex_headers`. -/
theorem cortex_headers_proof (execute : ExecuteResponse) (plan_source : String)
    (proof : KernelProof) (hp : execute.proof = some proof) :
    (isValidHeaderValue proof.semantic_root = true →
      ("x-cortex-semantic-root", proof.semantic_root) ∈ cortex_headers execute plan_source) ∧
    (isValidHeaderValue proof.trace_root = true →
      ("x-cortex-trace-root", proof.trace_root) ∈ cortex_headers execute plan_source) := by
  unfold cortex_headers
  rw [hp]
  constructor
  · intro hv
    exact mem_stallHeaders _ _ _ (mem_errorHeaders _ _ _
      (mem_push_header _ _ _ _ (mem_push_header_self _ _ _ hv)))
  · intro hv
    exact mem_stallHeaders _ _ _ (mem_errorHeaders _ _ _ (mem_push_header_self _ _ _ hv))

/-- Claim C5 (amended): for every kernel execute response the proxy returns
exactly the HTTP status of the table (Ok 200, Rejected 400, Stall 503,
AuthDenied 403, RangeExceeded 429, Unspecified 502) and an
`X-Cortex-Status` header equal to the status's enum name; when a proof is
present, each of `X-Cortex-Semantic-Root` and `X-Cortex-Trace-Root` equals
the kernel root provided that root is a valid HTTP header value — a root
containing a character outside visible ASCII/space/tab is silently
omitted. -/
theorem c5_status_mapping (execute : ExecuteResponse) (plan_source : String) :
    (map_execute_response execute (cortex_headers execute plan_source)).status =
        specStatusCode execute.status ∧
    ("x-cortex-status", execute.status.asStrName) ∈
        (map_execute_response execute (cortex_headers execute plan_source)).headers ∧
    (∀ proof, execute.proof = some proof →
      (isValidHeaderValue proof.semantic_root = true →
        ("x-cortex-semantic-root", proof.semantic_root) ∈
          (map_execute_response execute (cortex_headers execute plan_source)).headers) ∧
      (isValidHeaderValue proof.trace_root = true →
        ("x-cortex-trace-root", proof.trace_root) ∈
          (map_execute_response execute (cortex_headers execute plan_source)).headers)) := by
  refine ⟨?_, ?_, ?_⟩
  · unfold map_execute_response specStatusCode
    cases execute.status <;> rfl
  · rw [map_execute_response_headers]
    exact cortex_headers_status execute plan_source
  · intro proof hp
    rw [map_execute_response_headers]
    exact cortex_headers_proof execute plan_source proof hp

/-- Claim C5, counterexample: a kernel Ok response whose proof's semantic
root is a newline produces a response with no `X-Cortex-Semantic-Root`
header at all, although a proof is present — the claimed header equality
fails. -/
theorem c5_counterexample :
    newlineRootResponse.proof =
        some { semantic_root := "\n", trace_root := "root2" } ∧
    ("x-cortex-semantic-root", "\n") ∉
      (map_execute_response newlineRootResponse
        (cortex_headers newlineRootResponse "byo_header")).headers ∧
    (map_execute_response newlineRootResponse
        (cortex_headers newlineRootResponse "byo_header")).headers.all
      (fun p => p.1 != "x-cortex-semantic-root") = true := by
  refine ⟨rfl, ?_, ?_⟩
  · decide
  · decide

/-- Claim C5, witness: a stalled response with well-formed roots — HTTP 503,
the status header, and the semantic-root header are present. -/
theorem c5_witness :
    (map_execute_response
        { status := .stall
          proof := some { semantic_root := "root1", trace_root := "root2" }
          rendered := none
          stall := some { handle_ref := "H1", availability_name := "PENDING" }
          error := none }
        (cortex_headers
          { status := .stall
            proof := some { semantic_root := "root1", trace_root := "root2" }
            rendered := none
            stall := some { handle_ref := "H1", availability_name := "PENDING" }
            error := none } "fallback")).status = specStatusCode .stall ∧
    ("x-cortex-semantic-root", "root1") ∈
      (map_execute_response
        { status := .stall
          proof := some { semantic_root := "root1", trace_root := "root2" }
          rendered := none
          stall := some { handle_ref := "H1", availability_name := "PENDING" }
          error := none }
        (cortex_headers
          { status := .stall
            proof := some { semantic_root := "root1", trace_root := "root2" }
            rendered := none
            stall := some { handle_ref := "H1", availability_name := "PENDING" }
            error := none } "fallback")).headers :=
  ⟨(c5_status_mapping _ "fallback").1,
   ((c5_status_mapping _ "fallback").2.2
      { semantic_root := "root1", trace_root := "root2" } rfl).1 (by decide)⟩

end C5

section MutationHelpers

open BrainStore

/-- Inversion for `env_secret`. -/
theorem env_secret_ok_iff (env : Env) (name secret : String) :
    env_secret env name = .ok secret ↔ env name = some secret := by
  unfold env_secret
  cases h : env name with
  | none =>
    constructor
    · intro hh; exact nomatch hh
    · intro hh; exact nomatch hh
  | some v => simp

/-- Inversion for AEAD opening. -/
theorem decrypt_blob_ok_iff {α : Type} (key : DerivedKey) (aad : String)
    (blob : EncryptedBlob α) (v : α) :
    decrypt_blob key aad blob = .ok v ↔
      blob.key = key ∧ blob.aad = aad ∧ v = blob.plain := by
  unfold decrypt_blob
  split
  · rename_i hcond
    simp only [Except.ok.injEq]
    constructor
    · intro h; exact ⟨hcond.1, hcond.2, h.symm⟩
    · rintro ⟨-, -, h⟩; exact h.symm
  · rename_i hcond
    constructor
    · intro h; exact nomatch h
    · rintro ⟨h1, h2, -⟩; exact absurd ⟨h1, h2⟩ hcond

/-- Inversion for `load_by_dir`: loading succeeds exactly when the manifest
signature verifies, the secret is present, the stored digest matches, and
both blobs open under the derived key with the brain id as associated data;
the result is then the manifest together with both plaintexts. -/
theorem load_by_dir_ok_iff (env : Env) (disk : StoredBrain)
    (t : BrainManifest × BrainState × Nat) :
    load_by_dir env disk = .ok t ↔
      verify_manifest_signature disk.manifest = .ok () ∧
      ∃ secret, env disk.manifest.core.secret_env_var = some secret ∧
        Digest.sha256 disk.state_enc = disk.manifest.core.state_sha256 ∧
        disk.state_enc.key = derive_key secret disk.manifest.core.kdf_salt ∧
        disk.state_enc.aad = disk.manifest.core.brain_id ∧
        disk.signing_key_enc.key = derive_key secret disk.manifest.core.kdf_salt ∧
        disk.signing_key_enc.aad = disk.manifest.core.brain_id ∧
        t = (disk.manifest, disk.state_enc.plain, disk.signing_key_enc.plain) := by
  unfold load_by_dir
  rw [except_bind_ok_iff]
  constructor
  · rintro ⟨u, hv, h⟩
    cases u
    rw [except_bind_ok_iff] at h
    obtain ⟨secret, hsec, h⟩ := h
    rw [env_secret_ok_iff] at hsec
    split at h
    · rename_i hdig
      rw [except_bind_ok_iff] at h
      obtain ⟨state, hdec1, h⟩ := h
      rw [except_bind_ok_iff] at h
      obtain ⟨sk, hdec2, h⟩ := h
      rw [decrypt_blob_ok_iff] at hdec1 hdec2
      injection h with h
      refine ⟨hv, secret, hsec, hdig, hdec1.1, hdec1.2.1, hdec2.1, hdec2.2.1, ?_⟩
      rw [← h, hdec1.2.2, hdec2.2.2]
    · exact nomatch h
  · rintro ⟨hv, secret, hsec, hdig, hk1, ha1, hk2, ha2, ht⟩
    refine ⟨(), hv, ?_⟩
    rw [except_bind_ok_iff]
    refine ⟨secret, (env_secret_ok_iff env _ secret).mpr hsec, ?_⟩
    rw [if_pos hdig]
    rw [except_bind_ok_iff]
    refine ⟨disk.state_enc.plain, (decrypt_blob_ok_iff _ _ _ _).mpr ⟨hk1, ha1, rfl⟩, ?_⟩
    rw [except_bind_ok_iff]
    refine ⟨disk.signing_key_enc.plain,
      (decrypt_blob_ok_iff _ _ _ _).mpr ⟨hk2, ha2, rfl⟩, ?_⟩
    rw [ht]

/-- Inversion for `mutate_brain`: the mutation succeeds exactly when loading
succeeds, the closure succeeds on the decrypted state, and the secret is
still present for resealing; the written directory is then `reseal`. -/
theorem mutate_brain_ok_iff {α : Type} (env : Env) (now : String) (nonce : Nat)
    (disk : StoredBrain)
    (f : BrainManifest → BrainState → Except String (BrainManifest × BrainState × α))
    (r : StoredBrain × α) :
    mutate_brain env now nonce disk f = .ok r ↔
      load_by_dir env disk =
          .ok (disk.manifest, disk.state_enc.plain, disk.signing_key_enc.plain) ∧
      ∃ m1 s1 a secret2,
        f disk.manifest disk.state_enc.plain = .ok (m1, s1, a) ∧
        env m1.core.secret_env_var = some secret2 ∧
        r = (reseal now nonce disk.signing_key_enc.plain secret2 disk.signing_key_enc m1 s1,
          a) := by
  unfold mutate_brain
  rw [except_bind_ok_iff]
  constructor
  · rintro ⟨⟨m0, state0, sk0⟩, hload, h⟩
    have hlager := (load_by_dir_ok_iff env disk (m0, state0, sk0)).mp hload
    obtain ⟨-, secret, -, -, -, -, -, -, htrip⟩ := hlager
    injection htrip with hm0 htrip
    injection htrip with hstate0 hsk0
    subst hm0
    subst hstate0
    subst hsk0
    rw [except_bind_ok_iff] at h
    obtain ⟨⟨m1, s1, a⟩, hf, h⟩ := h
    rw [except_bind_ok_iff] at h
    obtain ⟨secret2, hsec2, h⟩ := h
    rw [env_secret_ok_iff] at hsec2
    injection h with h
    exact ⟨hload, m1, s1, a, secret2, hf, hsec2, h.symm⟩
  · rintro ⟨hload, m1, s1, a, secret2, hf, hsec2, hr⟩
    refine ⟨(disk.manifest, disk.state_enc.plain, disk.signing_key_enc.plain), hload, ?_⟩
    rw [except_bind_ok_iff]
    refine ⟨(m1, s1, a), hf, ?_⟩
    rw [except_bind_ok_iff]
    refine ⟨secret2, (env_secret_ok_iff env _ secret2).mpr hsec2, ?_⟩
    rw [hr]

end MutationHelpers

section C9

open BrainStore

/-- Claim C9: after every successful brain mutation through the mutation
protocol (the closure standing for branch, merge, forget_suppress, attach
or detach, none of which touches the embedded public key), the rewritten
manifest's `state_sha256` is the SHA-256 digest of the canonical serialized
bytes of the newly written encrypted state blob, and — provided the stored
signing key corresponds to the manifest's embedded public key, as every
store-created or imported brain satisfies — the rewritten manifest's
signature verifies against that embedded public key. -/
theorem c9_mutation_integrity {α : Type} (env : Env) (now : String) (nonce : Nat)
    (disk : StoredBrain)
    (f : BrainManifest → BrainState → Except String (BrainManifest × BrainState × α))
    (disk' : StoredBrain) (a : α)
    (hpres : ∀ m s r, f m s = .ok r →
      (r : BrainManifest × BrainState × α).1.core.signing_public_key =
        m.core.signing_public_key)
    (hpub : pubOf disk.signing_key_enc.plain = disk.manifest.core.signing_public_key)
    (h : mutate_brain env now nonce disk f = .ok (disk', a)) :
    disk'.manifest.core.state_sha256 = Digest.sha256 disk'.state_enc ∧
    verify_manifest_signature disk'.manifest = .ok () := by
  rw [mutate_brain_ok_iff] at h
  obtain ⟨-, m1, s1, a2, secret2, hf, -, hr⟩ := h
  have hd : disk' = reseal now nonce disk.signing_key_enc.plain secret2
      disk.signing_key_enc m1 s1 := congrArg Prod.fst hr
  subst hd
  constructor
  · rfl
  · have hkey : m1.core.signing_public_key = disk.manifest.core.signing_public_key :=
      hpres disk.manifest disk.state_enc.plain (m1, s1, a2) hf
    have hcond : pubOf disk.signing_key_enc.plain = m1.core.signing_public_key := by
      rw [hkey]; exact hpub
    simp [reseal, verify_manifest_signature, sign_manifest, hcond]

/-- Claim C9, witness: mutating `wDisk` with the identity closure yields a
resealed directory whose digest field matches the new blob and whose
re-signed manifest verifies. -/
theorem c9_witness :
    (reseal "t1" 7 9 "pw" wSkBlob wManifest wState).manifest.core.state_sha256 =
        Digest.sha256 (reseal "t1" 7 9 "pw" wSkBlob wManifest wState).state_enc ∧
    verify_manifest_signature
        (reseal "t1" 7 9 "pw" wSkBlob wManifest wState).manifest = .ok () :=
  c9_mutation_integrity wEnv "t1" 7 wDisk (fun m s => .ok (m, s, ()))
    (reseal "t1" 7 9 "pw" wSkBlob wManifest wState) ()
    (fun m s r hr => by
      injection hr with h2
      subst h2
      rfl)
    (by decide)
    (by decide)

end C9

section C4

open BrainStore

/-- Inserting under one key leaves lookups of other keys unchanged. -/
theorem alGet_alInsert_ne {α : Type} (m : List (String × α)) (k k' : String) (v : α)
    (h : k' ≠ k) : alGet (alInsert k v m) k' = alGet m k' := by
  induction m with
  | nil => simp [alInsert, alGet, h]
  | cons p rest ih =>
    obtain ⟨pk, pv⟩ := p
    unfold alInsert
    by_cases h1 : k = pk
    · rw [if_pos h1]
      subst h1
      simp [alGet, h]
    · rw [if_neg h1]
      by_cases h2 : charListLt k.data pk.data = true
      · rw [if_pos h2]
        simp [alGet, h]
      · rw [if_neg h2]
        by_cases h3 : k' = pk
        · simp [alGet, h3]
        · simp [alGet, h3, ih]

/-- The conflict accumulator of the merge loop only grows. -/
theorem mergeObjects_conflicts_sub (strategy : MergeStrategy) :
    ∀ (src tgt : List (String × MemoryObject)) (merged : Nat) (acc : List String),
      acc ⊆ (mergeObjects strategy src tgt merged acc).2.2 := by
  intro src
  induction src with
  | nil => intro tgt merged acc x hx; exact hx
  | cons p rest ih =>
    intro tgt merged acc
    obtain ⟨id, so⟩ := p
    unfold mergeObjects
    split
    · exact ih _ _ _
    · rename_i dst hg
      by_cases hv : dst.value = so.value ∧ dst.suppressed = so.suppressed
      · rw [if_pos hv]
        exact ih _ _ _
      · rw [if_neg hv]
        cases strategy with
        | ours => exact ih _ _ _
        | theirs => exact ih _ _ _
        | manual => exact fun x hx => ih _ _ _ (List.mem_append_left _ hx)

/-- Completeness of the Manual conflict list: every source object whose id
is also in the target with a differing `(value, suppressed)` pair ends up in
the conflict list. -/
theorem mergeObjects_conflicts_complete :
    ∀ (src tgt : List (String × MemoryObject)) (merged : Nat) (acc : List String),
      (src.map Prod.fst).Nodup →
      ∀ id so tobj, (id, so) ∈ src → alGet tgt id = some tobj →
        (so.value ≠ tobj.value ∨ so.suppressed ≠ tobj.suppressed) →
        id ∈ (mergeObjects .manual src tgt merged acc).2.2 := by
  intro src
  induction src with
  | nil =>
    intro tgt merged acc _ id so tobj hmem
    exact absurd hmem (List.not_mem_nil _)
  | cons p rest ih =>
    intro tgt merged acc hnd id so tobj hmem hget hdiff
    obtain ⟨pid, pso⟩ := p
    rcases List.mem_cons.mp hmem with heq | hmem2
    · have h1 : id = pid := congrArg Prod.fst heq
      have h2 : so = pso := congrArg Prod.snd heq
      subst h1
      subst h2
      unfold mergeObjects
      simp only [hget]
      rw [if_neg ?_]
      · exact mergeObjects_conflicts_sub .manual rest tgt merged (acc ++ [id])
          (List.mem_append_right _ (List.mem_singleton.mpr rfl))
      · rintro ⟨hv, hsp⟩
        rcases hdiff with hd | hd
        · exact hd hv.symm
        · exact hd hsp.symm
    · have hne : id ≠ pid := by
        intro hcontra
        subst hcontra
        have hmem3 : id ∈ rest.map Prod.fst := List.mem_map.mpr ⟨(id, so), hmem2, rfl⟩
        exact (List.nodup_cons.mp hnd).1 hmem3
      have hnd2 := (List.nodup_cons.mp hnd).2
      unfold mergeObjects
      split
      · refine ih _ _ _ hnd2 id so tobj hmem2 ?_ hdiff
        rw [alGet_alInsert_ne _ _ _ _ hne]
        exact hget
      · rename_i dst hg
        by_cases hv : dst.value = pso.value ∧ dst.suppressed = pso.suppressed
        · rw [if_pos hv]
          exact ih _ _ _ hnd2 id so tobj hmem2 hget hdiff
        · rw [if_neg hv]
          exact ih _ _ _ hnd2 id so tobj hmem2 hget hdiff

/-- Claim C4: for `merge` with strategy Manual, every memory object id
present in both the source and target branches with differing
`(value, suppressed)` is recorded in the conflict list computed by the
merge loop, and when that list is non-empty the merge operation returns an
error — the closure aborts `mutate_brain` before the reseal, so no new
directory content is produced and nothing is persisted. -/
theorem c4_manual_merge (env : Env) (now : String) (nonce : Nat) (aid ats : String)
    (disk : StoredBrain) (source target : String) (sb tb : BranchState)
    (hs : alGet disk.state_enc.plain.branches source = some sb)
    (ht : alGet disk.state_enc.plain.branches target = some tb)
    (hnd : (sb.memory_objects.map Prod.fst).Nodup) :
    (∀ id so tobj, (id, so) ∈ sb.memory_objects → alGet tb.memory_objects id = some tobj →
      (so.value ≠ tobj.value ∨ so.suppressed ≠ tobj.suppressed) →
      id ∈ (mergeObjects .manual sb.memory_objects tb.memory_objects 0 []).2.2) ∧
    ((mergeObjects .manual sb.memory_objects tb.memory_objects 0 []).2.2 ≠ [] →
      ∃ e, merge env now nonce aid ats disk source target .manual = .error e) := by
  constructor
  · exact fun id so tobj hmem hget hdiff =>
      mergeObjects_conflicts_complete sb.memory_objects tb.memory_objects 0 [] hnd
        id so tobj hmem hget hdiff
  · intro hconf
    cases hm : merge env now nonce aid ats disk source target .manual with
    | error e => exact ⟨e, rfl⟩
    | ok r =>
      exfalso
      unfold merge at hm
      rw [mutate_brain_ok_iff] at hm
      obtain ⟨-, m1, s1, a, secret2, hf, -, -⟩ := hm
      unfold mergeClosure at hf
      simp only [hs, ht] at hf
      rw [if_pos hconf] at hf
      exact nomatch hf

/-- Claim C4, witness: merging `exp` into `main` on `cDisk` with strategy
Manual records the conflicting id `m1` and the merge fails. -/
theorem c4_witness :
    "m1" ∈ (mergeObjects .manual cBranchSrc.memory_objects wBranch.memory_objects 0 []).2.2 ∧
    (merge wEnv "t1" 7 "a1" "ta" cDisk "exp" "main" .manual).isOk = false := by
  have h := c4_manual_merge wEnv "t1" 7 "a1" "ta" cDisk "exp" "main" cBranchSrc wBranch
    (by decide) (by decide) (by decide)
  constructor
  · exact h.1 "m1"
      { id := "m1", subject := "user:x", predicate := "prefers_beverage"
        value := "water", memory_type := "normative.preference", suppressed := false }
      wObjA (by decide) (by decide) (by decide)
  · obtain ⟨e, he⟩ := h.2 (by decide)
    rw [he]
    rfl

end C4

section C7

open BrainStore

/-- Updating an existing key makes lookups of that key return the new
value. -/
theorem alGet_alUpdate_self {α : Type} (m : List (String × α)) (k : String)
    (w v : α) (h : alGet m k = some w) : alGet (alUpdate k v m) k = some v := by
  induction m with
  | nil => exact nomatch h
  | cons p rest ih =>
    obtain ⟨pk, pv⟩ := p
    simp only [alUpdate, List.map_cons]
    by_cases hk : pk = k
    · rw [if_pos hk]
      unfold alGet
      rw [if_pos rfl]
    · rw [if_neg hk]
      have hk2 : ¬ k = pk := fun hc => hk hc.symm
      unfold alGet at h ⊢
      rw [if_neg hk2] at h ⊢
      exact ih h

/-- After the suppression pass, no matching object of the branch is left
unsuppressed. -/
theorem flipped_all_suppressed (subject predicate : String)
    (l : List (String × MemoryObject)) :
    ∀ q ∈ l.map (fun p =>
        if forgetMatches subject predicate p.2 then
          (p.1, { p.2 with suppressed := true })
        else p),
      q.2.subject = subject → q.2.predicate = predicate → q.2.suppressed = true := by
  intro q hq hs hp
  obtain ⟨p, hpmem, hpq⟩ := List.mem_map.mp hq
  by_cases hm : forgetMatches subject predicate p.2 = true
  · rw [if_pos hm] at hpq
    rw [← hpq]
  · rw [if_neg hm] at hpq
    subst hpq
    have hmf : forgetMatches subject predicate p.2 = false := by
      cases hx : forgetMatches subject predicate p.2
      · rfl
      · exact absurd hx hm
    unfold forgetMatches at hmf
    rw [hs, hp] at hmf
    simpa using hmf

/-- The suppression pass is exhaustive: a second pass finds nothing left to
flip. -/
theorem flipped_filter_nil (subject predicate : String)
    (l : List (String × MemoryObject)) :
    (l.map (fun p =>
        if forgetMatches subject predicate p.2 then
          (p.1, { p.2 with suppressed := true })
        else p)).filter (fun p => forgetMatches subject predicate p.2) = [] := by
  induction l with
  | nil => rfl
  | cons p rest ih =>
    simp only [List.map_cons]
    by_cases hm : forgetMatches subject predicate p.2 = true
    · rw [if_pos hm]
      rw [List.filter_cons]
      rw [if_neg ?_]
      · exact ih
      · simp [forgetMatches]
    · rw [if_neg hm]
      rw [List.filter_cons]
      rw [if_neg ?_]
      · exact ih
      · simp only [Bool.not_eq_true] at hm
        simp [hm]

/-- A resealed directory's manifest verifies when the signing key matches
the pre-mutation public key. -/
theorem verify_reseal (now : String) (nonce sk : Nat) (secret : String)
    (old_sk_enc : EncryptedBlob Nat) (m1 : BrainManifest) (s1 : BrainState)
    (hcond : pubOf sk = m1.core.signing_public_key) :
    verify_manifest_signature (reseal now nonce sk secret old_sk_enc m1 s1).manifest =
      .ok () := by
  simp [reseal, verify_manifest_signature, sign_manifest, hcond]

/-- Claim C7: after a successful `forget_suppress(subject, predicate, scope,
reason)`, no memory object of the active branch with that subject and
predicate has `suppressed = false`; the returned count equals the number of
objects whose flag was flipped from false to true (the unsuppressed
matches of the pre-call active branch); and an immediately repeated
identical call succeeds with count 0 (given the store invariant that the
sealed signing key matches the manifest's embedded public key, needed for
the re-verification of the re-signed manifest). -/
theorem c7_forget_suppress (env : Env) (now : String) (nonce : Nat)
    (sid sts aid ats : String) (disk : StoredBrain)
    (subject predicate scope reason : String) (disk1 : StoredBrain) (n : Nat)
    (hpub : pubOf disk.signing_key_enc.plain = disk.manifest.core.signing_public_key)
    (h : forget_suppress env now nonce sid sts aid ats disk subject predicate scope
      reason = .ok (disk1, n)) :
    (∀ branch1, alGet disk1.state_enc.plain.branches
        disk1.manifest.core.active_branch = some branch1 →
      ∀ q ∈ branch1.memory_objects, q.2.subject = subject →
        q.2.predicate = predicate → q.2.suppressed = true) ∧
    (∀ branch0, alGet disk.state_enc.plain.branches
        disk.manifest.core.active_branch = some branch0 →
      n = (branch0.memory_objects.filter
        (fun p => forgetMatches subject predicate p.2)).length) ∧
    (∀ now2 nonce2 sid2 sts2 aid2 ats2,
      ∃ disk2, forget_suppress env now2 nonce2 sid2 sts2 aid2 ats2 disk1
        subject predicate scope reason = .ok (disk2, 0)) := by
  unfold forget_suppress at h
  rw [mutate_brain_ok_iff] at h
  obtain ⟨hload, m1, s1, a, secret2, hf, hsec2, hr⟩ := h
  unfold forgetClosure at hf
  cases hb : alGet disk.state_enc.plain.branches disk.manifest.core.active_branch with
  | none =>
    simp only [hb] at hf
    exact nomatch hf
  | some branch =>
    simp only [hb, Except.ok.injEq, Prod.mk.injEq] at hf
    obtain ⟨hm1, hs1, ha⟩ := hf
    have hd1 : disk1 =
        reseal now nonce disk.signing_key_enc.plain secret2 disk.signing_key_enc m1 s1 :=
      congrArg Prod.fst hr
    have hn : n = a := congrArg Prod.snd hr
    have hplain : disk1.state_enc.plain = s1 := by rw [hd1]; rfl
    have hact1 : disk1.manifest.core.active_branch = m1.core.active_branch := by
      rw [hd1]; rfl
    have hup := alGet_alUpdate_self disk.state_enc.plain.branches
      disk.manifest.core.active_branch branch
      { branch with
        memory_objects := branch.memory_objects.map (fun p =>
          if forgetMatches subject predicate p.2 then
            (p.1, { p.2 with suppressed := true })
          else p)
        suppressions := branch.suppressions ++
          [{ id := sid, ts := sts, subject := subject, predicate := predicate
             scope := scope, reason := reason
             suppressed_count := (branch.memory_objects.filter
               (fun p => forgetMatches subject predicate p.2)).length }] } hb
    refine ⟨?_, ?_, ?_⟩
    · intro branch1 hb1 q hq hqs hqp
      rw [hplain, hact1, ← hm1] at hb1
      have hb1b : alGet s1.branches disk.manifest.core.active_branch = some branch1 := hb1
      rw [← hs1] at hb1b
      have hb1c : alGet
          (alUpdate disk.manifest.core.active_branch
            { branch with
              memory_objects := branch.memory_objects.map (fun p =>
                if forgetMatches subject predicate p.2 then
                  (p.1, { p.2 with suppressed := true })
                else p)
              suppressions := branch.suppressions ++
                [{ id := sid, ts := sts, subject := subject, predicate := predicate
                   scope := scope, reason := reason
                   suppressed_count := (branch.memory_objects.filter
                     (fun p => forgetMatches subject predicate p.2)).length }] }
            disk.state_enc.plain.branches)
          disk.manifest.core.active_branch = some branch1 := hb1b
      rw [hup] at hb1c
      injection hb1c with hb1c
      rw [← hb1c] at hq
      exact flipped_all_suppressed subject predicate branch.memory_objects q hq hqs hqp
    · intro branch0 hb0
      injection hb0 with hb0
      subst hb0
      rw [hn]
      exact ha.symm
    · intro now2 nonce2 sid2 sts2 aid2 ats2
      obtain ⟨-, secret, hsecd, -, -, -, hskk, hska, -⟩ :=
        (load_by_dir_ok_iff env disk
          (disk.manifest, disk.state_enc.plain, disk.signing_key_enc.plain)).mp hload
      have hsecsame : secret = secret2 := by
        have hv2 : env disk.manifest.core.secret_env_var = some secret2 := by
          rw [hm1]; exact hsec2
        rw [hsecd] at hv2
        exact Option.some.inj hv2
      subst hsecsame
      exact ⟨_, by
        unfold forget_suppress
        rw [mutate_brain_ok_iff]
        constructor
        · rw [load_by_dir_ok_iff]
          refine ⟨?_, secret, ?_, ?_, ?_, ?_, ?_, ?_, ?_⟩
          · rw [hd1]
            refine verify_reseal _ _ _ _ _ _ _ ?_
            rw [← hm1]
            exact hpub
          · rw [hd1]
            exact hsec2
          · rw [hd1]; rfl
          · rw [hd1]; rfl
          · rw [hd1]; rfl
          · rw [hd1]
            show disk.signing_key_enc.key = derive_key secret m1.core.kdf_salt
            rw [← hm1]
            exact hskk
          · rw [hd1]
            show disk.signing_key_enc.aad = m1.core.brain_id
            rw [← hm1]
            exact hska
          · rw [hd1]
        · exact ⟨(reseal now nonce disk.signing_key_enc.plain secret
              disk.signing_key_enc m1 s1).manifest, _, 0, secret, (by
            unfold forgetClosure
            rw [hd1]
            have hget2 : alGet (reseal now nonce disk.signing_key_enc.plain secret
                  disk.signing_key_enc m1 s1).state_enc.plain.branches
                (reseal now nonce disk.signing_key_enc.plain secret
                  disk.signing_key_enc m1 s1).manifest.core.active_branch =
                some { branch with
                  memory_objects := branch.memory_objects.map (fun p =>
                    if forgetMatches subject predicate p.2 then
                      (p.1, { p.2 with suppressed := true })
                    else p)
                  suppressions := branch.suppressions ++
                    [{ id := sid, ts := sts, subject := subject, predicate := predicate
                       scope := scope, reason := reason
                       suppressed_count := (branch.memory_objects.filter
                         (fun p => forgetMatches subject predicate p.2)).length }] } := by
              show alGet s1.branches m1.core.active_branch = _
              rw [← hm1, ← hs1]
              exact hup
            simp only [hget2]
            rw [flipped_filter_nil subject predicate branch.memory_objects]
            rfl), hsec2, rfl⟩⟩

/-- Claim C7, witness: suppressing `prefers_beverage` for `user:x` on
`wDisk` flips exactly the one unsuppressed matching object. -/
theorem c7_witness :
    (1 : Nat) = (wBranch.memory_objects.filter
        (fun p => forgetMatches "user:x" "prefers_beverage" p.2)).length := by
  have h := c7_forget_suppress wEnv "t1" 7 "s1" "ts" "a1" "ta" wDisk
    "user:x" "prefers_beverage" "SCOPE_GLOBAL" "test"
    (reseal "t1" 7 9 "pw" wSkBlob wManifest
      { branches := [("main",
          { name := "main"
            memory_objects := [("m1", { wObjA with suppressed := true }), ("m2", wObjB)]
            rules := []
            ledger := []
            suppressions := [{ id := "s1", ts := "ts", subject := "user:x"
                               predicate := "prefers_beverage", scope := "SCOPE_GLOBAL"
                               reason := "test", suppressed_count := 1 }] })]
        attachments := []
        audit := [{ id := "a1", ts := "ta", actor := "user"
                    action := "brain.forget.suppress", details := "" }] }) 1
    (by decide) (by decide)
  exact h.2.1 wBranch (by decide)

end C7
